import Mathlib

/-!
Shallow embedding of the boundary adapter in `src/src/index.ts` (class
`ReedSolomonErasure`) of the reed-solomon-erasure.wasm repository, together
with the browser build in `src/unnamed/part_000`, whose marshaling logic is
identical.  The opaque wasm coding engine is modelled as a record of
arbitrary state-transition functions (`IWasm`); engine linear memory is a
byte list, and the identity of the backing `ArrayBuffer` is modelled by a
`bufferId` that the engine may change (growing the memory reallocates the
buffer, which is what invalidates cached `Uint8Array` views).

JavaScript numeric details: a `Uint8Array` is a `List Nat` of its bytes.
`shardSize` is computed in the source as the floating point quotient
`shardsLength / (dataShards + parityShards)` and is only ever used in the
product `shardSize * dataShards`, truncated by `subarray` and by the
integer conversion of the `set` target offset; we model that truncated
product with exact rational arithmetic, which in `Nat` is
`shardsLength * dataShards / (dataShards + parityShards)`, since over the
rationals trunc of (L / k) * d equals L * d / k.  All claim theorems below
assume 0 < dataShards + parityShards, the domain on which this model is
faithful (at k = 0 the JavaScript code computes an Infinity or NaN offset).
A `TypedArray.set` call whose source does not fit at the target offset
throws a `RangeError`; such an abrupt exit is modelled by `result := none`
in the output record of a call, while a normal return with code `r` is
`result := some r`.  The output records also carry ghost fields (the
allocated pointers, the arguments handed to the engine, the raw code the
engine returned, the memory image right after the engine call, and the list
of malloc and free invocations) so that theorems can speak about the
foreign-memory protocol without re-opening the definition.
-/

/-- Engine-side state: the wasm instance linear memory (`exports.memory`).
`mem` is the byte content, `bufferId` models the reference identity of
`exports.memory.buffer` (reallocated, hence changed, when memory grows). -/
structure WasmState where
  bufferId : Nat
  mem : List Nat
deriving DecidableEq

/-- A `Uint8Array` view over the whole engine memory, as produced by
`new Uint8Array(this.exports.memory.buffer)`.  `viewId` models the
reference identity of the view object itself, `bufferId` the identity of
the `ArrayBuffer` the view was derived from. -/
structure MemView where
  viewId : Nat
  bufferId : Nat
deriving DecidableEq

/-- Adapter-side instance state: the `memoryCache` field of the class, plus
a counter supplying fresh view identities. -/
structure AdapterState where
  memoryCache : Option MemView
  nextViewId : Nat
deriving DecidableEq

/-- The foreign engine interface (`interface IWasm` in the source).  Every
operation may update the whole engine state (it can write memory and grow
it, changing `bufferId`); `malloc` returns a pointer, the coding operations
return a numeric result code.  The functions are arbitrary: the engine is
an opaque black box and the theorems quantify over it. -/
structure IWasm where
  malloc : WasmState → Nat → WasmState × Nat
  free : WasmState → Nat → Nat → WasmState
  encodeOp : WasmState → Nat → Nat → Nat → Nat → WasmState × Int
  reconstructOp : WasmState → Nat → Nat → Nat → Nat → Nat → Nat → WasmState × Int

/-- `target.set(src, offset)` on byte lists: overwrite the slots
`[offset, offset + src.length)` of `target` with `src`.  Faithful to the
JavaScript call only when `offset + src.length ≤ target.length`; the
callers below check that bound and model the `RangeError` thrown otherwise. -/
def listSet (target src : List Nat) (offset : Nat) : List Nat :=
  target.take offset ++ src ++ target.drop (offset + src.length)

/-- `a.subarray(b, e)` on byte lists: the bytes `[b, e)` of `a`, with both
ends clamped to the array bounds exactly as `subarray` clamps them. -/
def subarrayBytes (a : List Nat) (b e : Nat) : List Nat :=
  (a.take e).drop b

namespace ReedSolomonErasure

/-- `private getUint8Memory()` of the class: return the cached view when its
backing buffer is still (by reference) the current engine buffer, otherwise
derive a fresh view over the current buffer and store it in the cache. -/
def getUint8Memory (a : AdapterState) (s : WasmState) : MemView × AdapterState :=
  match a.memoryCache with
  | some v =>
    if v.bufferId = s.bufferId then
      (v, a)
    else
      (⟨a.nextViewId, s.bufferId⟩,
        ⟨some ⟨a.nextViewId, s.bufferId⟩, a.nextViewId + 1⟩)
  | none =>
    (⟨a.nextViewId, s.bufferId⟩,
      ⟨some ⟨a.nextViewId, s.bufferId⟩, a.nextViewId + 1⟩)

/-- Output record of one `encode` call.  `result`, `shards`, `state` and
`adapter` are the observable outcome (`result = none` models a thrown
`RangeError`); `pointer`, `postMem` (engine memory right after the engine
`encode` returned), `engineArgs`, `engineRet`, `mallocs` and `frees` are
ghost observations of the foreign-memory protocol. -/
structure EncodeOut where
  result : Option Int
  shards : List Nat
  state : WasmState
  adapter : AdapterState
  pointer : Nat
  postMem : List Nat
  engineArgs : Option (Nat × Nat × Nat × Nat)
  engineRet : Option Int
  mallocs : List (Nat × Nat)
  frees : List (Nat × Nat)
deriving DecidableEq

/-- `encode(shards, dataShards, parityShards)` of the class, lines 244-264
of `src/src/index.ts`: malloc a region of `shards.length` bytes, copy the
caller buffer in through the current memory view, invoke the engine
`encode`, on result 0 copy the parity segment of the region back into the
caller buffer at the same offset, free the region, return the code. -/
def encode (w : IWasm) (s0 : WasmState) (a0 : AdapterState)
    (shards : List Nat) (dataShards parityShards : Nat) : EncodeOut :=
  let shardsLength := shards.length
  let m := w.malloc s0 shardsLength
  let s1 := m.1
  let shardsPointer := m.2
  let a1 := (getUint8Memory a0 s1).2
  if shardsPointer + shardsLength ≤ s1.mem.length then
    let s2 : WasmState := ⟨s1.bufferId, listSet s1.mem shards shardsPointer⟩
    let e := w.encodeOp s2 shardsPointer shardsLength dataShards parityShards
    let s3 := e.1
    let result := e.2
    let offset := shardsLength * dataShards / (dataShards + parityShards)
    if result = 0 then
      let a2 := (getUint8Memory a1 s3).2
      let sub := subarrayBytes s3.mem (shardsPointer + offset) (shardsPointer + shardsLength)
      if offset + sub.length ≤ shardsLength then
        { result := some result
          shards := listSet shards sub offset
          state := w.free s3 shardsPointer shardsLength
          adapter := a2
          pointer := shardsPointer
          postMem := s3.mem
          engineArgs := some (shardsPointer, shardsLength, dataShards, parityShards)
          engineRet := some result
          mallocs := [(shardsPointer, shardsLength)]
          frees := [(shardsPointer, shardsLength)] }
      else
        { result := none
          shards := shards
          state := s3
          adapter := a2
          pointer := shardsPointer
          postMem := s3.mem
          engineArgs := some (shardsPointer, shardsLength, dataShards, parityShards)
          engineRet := some result
          mallocs := [(shardsPointer, shardsLength)]
          frees := [] }
    else
      { result := some result
        shards := shards
        state := w.free s3 shardsPointer shardsLength
        adapter := a1
        pointer := shardsPointer
        postMem := s3.mem
        engineArgs := some (shardsPointer, shardsLength, dataShards, parityShards)
        engineRet := some result
        mallocs := [(shardsPointer, shardsLength)]
        frees := [(shardsPointer, shardsLength)] }
  else
    { result := none
      shards := shards
      state := s1
      adapter := a1
      pointer := shardsPointer
      postMem := s1.mem
      engineArgs := none
      engineRet := none
      mallocs := [(shardsPointer, shardsLength)]
      frees := [] }

/-- Output record of one `reconstruct` call, with the same observable and
ghost fields as `EncodeOut` plus the availability region data:
`availPointer` and `availBytes` (the byte array built from the boolean
vector and written into engine memory), and `shardsAvailableOut`, the
caller availability array as it stands when the call exits. -/
structure ReconstructOut where
  result : Option Int
  shards : List Nat
  shardsAvailableOut : List Bool
  state : WasmState
  adapter : AdapterState
  pointer : Nat
  availPointer : Nat
  availBytes : List Nat
  postMem : List Nat
  engineArgs : Option (Nat × Nat × Nat × Nat × Nat × Nat)
  engineRet : Option Int
  mallocs : List (Nat × Nat)
  frees : List (Nat × Nat)
deriving DecidableEq

/-- `reconstruct(shards, dataShards, parityShards, shardsAvailable)` of the
class, lines 292-326 of `src/src/index.ts`: malloc and copy in the shard
buffer, malloc and copy in one byte per availability flag, invoke the
engine `reconstruct`, on result 0 copy the data-shard prefix of the region
back into the caller buffer at offset 0, free both regions, return the
code. -/
def reconstruct (w : IWasm) (s0 : WasmState) (a0 : AdapterState)
    (shards : List Nat) (dataShards parityShards : Nat)
    (shardsAvailable : List Bool) : ReconstructOut :=
  let shardsLength := shards.length
  let m1 := w.malloc s0 shardsLength
  let s1 := m1.1
  let shardsPointer := m1.2
  let a1 := (getUint8Memory a0 s1).2
  if shardsPointer + shardsLength ≤ s1.mem.length then
    let s2 : WasmState := ⟨s1.bufferId, listSet s1.mem shards shardsPointer⟩
    let shardsAvailableLength := shardsAvailable.length
    let m2 := w.malloc s2 shardsAvailableLength
    let s3 := m2.1
    let shardsAvailablePointer := m2.2
    let a2 := (getUint8Memory a1 s3).2
    let availBytes := shardsAvailable.map (fun value => if value then (1 : Nat) else 0)
    if shardsAvailablePointer + shardsAvailableLength ≤ s3.mem.length then
      let s4 : WasmState := ⟨s3.bufferId, listSet s3.mem availBytes shardsAvailablePointer⟩
      let e := w.reconstructOp s4 shardsPointer shardsLength dataShards parityShards
        shardsAvailablePointer shardsAvailableLength
      let s5 := e.1
      let result := e.2
      let offset := shardsLength * dataShards / (dataShards + parityShards)
      if result = 0 then
        let a3 := (getUint8Memory a2 s5).2
        let sub := subarrayBytes s5.mem shardsPointer (shardsPointer + offset)
        if sub.length ≤ shardsLength then
          { result := some result
            shards := listSet shards sub 0
            shardsAvailableOut := shardsAvailable
            state := w.free (w.free s5 shardsPointer shardsLength)
              shardsAvailablePointer shardsAvailableLength
            adapter := a3
            pointer := shardsPointer
            availPointer := shardsAvailablePointer
            availBytes := availBytes
            postMem := s5.mem
            engineArgs := some (shardsPointer, shardsLength, dataShards, parityShards,
              shardsAvailablePointer, shardsAvailableLength)
            engineRet := some result
            mallocs := [(shardsPointer, shardsLength),
              (shardsAvailablePointer, shardsAvailableLength)]
            frees := [(shardsPointer, shardsLength),
              (shardsAvailablePointer, shardsAvailableLength)] }
        else
          { result := none
            shards := shards
            shardsAvailableOut := shardsAvailable
            state := s5
            adapter := a3
            pointer := shardsPointer
            availPointer := shardsAvailablePointer
            availBytes := availBytes
            postMem := s5.mem
            engineArgs := some (shardsPointer, shardsLength, dataShards, parityShards,
              shardsAvailablePointer, shardsAvailableLength)
            engineRet := some result
            mallocs := [(shardsPointer, shardsLength),
              (shardsAvailablePointer, shardsAvailableLength)]
            frees := [] }
      else
        { result := some result
          shards := shards
          shardsAvailableOut := shardsAvailable
          state := w.free (w.free s5 shardsPointer shardsLength)
            shardsAvailablePointer shardsAvailableLength
          adapter := a2
          pointer := shardsPointer
          availPointer := shardsAvailablePointer
          availBytes := availBytes
          postMem := s5.mem
          engineArgs := some (shardsPointer, shardsLength, dataShards, parityShards,
            shardsAvailablePointer, shardsAvailableLength)
          engineRet := some result
          mallocs := [(shardsPointer, shardsLength),
            (shardsAvailablePointer, shardsAvailableLength)]
          frees := [(shardsPointer, shardsLength),
            (shardsAvailablePointer, shardsAvailableLength)] }
    else
      { result := none
        shards := shards
        shardsAvailableOut := shardsAvailable
        state := s3
        adapter := a2
        pointer := shardsPointer
        availPointer := shardsAvailablePointer
        availBytes := availBytes
        postMem := s3.mem
        engineArgs := none
        engineRet := none
        mallocs := [(shardsPointer, shardsLength),
          (shardsAvailablePointer, shardsAvailableLength)]
        frees := [] }
  else
    { result := none
      shards := shards
      shardsAvailableOut := shardsAvailable
      state := s1
      adapter := a1
      pointer := shardsPointer
      availPointer := 0
      availBytes := []
      postMem := s1.mem
      engineArgs := none
      engineRet := none
      mallocs := [(shardsPointer, shardsLength)]
      frees := [] }

/-- `static getResultMessage(code)`, lines 334-352 of `src/src/index.ts`:
the table lookup `messages[code]` with the fallback template string for any
code outside the table.  Total by construction, mirroring that the source
performs no operation that can throw. -/
def getResultMessage (code : Int) : String :=
  if code = 0 then "OK"
  else if code = 1 then "Too few shards"
  else if code = 2 then "Too many shards"
  else if code = 3 then "Too few data shards"
  else if code = 4 then "Too many data shards"
  else if code = 5 then "Too few parity shards"
  else if code = 6 then "Too many parity shards"
  else if code = 7 then "Too few buffer shards"
  else if code = 8 then "Too many buffer shards"
  else if code = 9 then "Incorrect shard size"
  else if code = 10 then "Too few shards present for reconstruction"
  else if code = 11 then "Empty shard"
  else if code = 12 then "Invalid shard flags"
  else if code = 13 then "Invalid index"
  else "Unknown error code: " ++ toString code

/-- The module-level singleton slot: `cachedInstance` and `loadingPromise`
(lines 27-28 of `src/src/index.ts`).  Engine handles and pending promises
are modelled by identities. -/
structure SingletonState where
  cachedInstance : Option Nat
  loadingPromise : Option Nat
deriving DecidableEq

/-- What the synchronous prefix of `getInstance` (lines 77-97) does before
any suspension: either resolve immediately with the cached handle, or join
the in-flight promise, or start a new instantiation. -/
inductive GetInstanceOutcome where
  | resolvedCached (h : Nat)
  | joined (pid : Nat)
  | started (pid : Nat)
deriving DecidableEq

/-- The synchronous prefix of `static getInstance`: check `cachedInstance`,
then `loadingPromise`, else assign a new instantiation promise (identity
`freshPid`, the actual loader chosen is irrelevant to the slot protocol)
to `loadingPromise`. -/
def getInstanceStep (s : SingletonState) (freshPid : Nat) :
    GetInstanceOutcome × SingletonState :=
  match s.cachedInstance with
  | some h => (.resolvedCached h, s)
  | none =>
    match s.loadingPromise with
    | some pid => (.joined pid, s)
    | none => (.started freshPid, ⟨none, some freshPid⟩)

/-- How an instantiation that was started can settle. -/
inductive LoadOutcome where
  | success (h : Nat)
  | failure
deriving DecidableEq

/-- The continuation of the starting `getInstance` call after
`await loadingPromise` settles (lines 98-101):
on success, `cachedInstance = await loadingPromise` stores the handle and
the following statement clears `loadingPromise`; on failure the `await`
rethrows, so neither assignment runs and the slot is returned unchanged
(the second component is the value the call resolves with, `none` meaning
the call rejects). -/
def getInstanceSettle (s : SingletonState) (o : LoadOutcome) :
    SingletonState × Option Nat :=
  match o with
  | .success h => (⟨some h, none⟩, some h)
  | .failure => (s, none)

/-- An engine handle as produced by the one construction primitive
`static fromBytes` (`new WebAssembly.Module` + `new WebAssembly.Instance`). -/
inductive LoadedHandle where
  | fromBytes (bytes : List Nat)
deriving DecidableEq

/-- Outcome of a synchronous factory: a thrown `Error` with its message, or
a constructed handle. -/
inductive SyncLoadResult where
  | threw (msg : String)
  | ok (h : LoadedHandle)
deriving DecidableEq

/-- `static fromCurrentDirectorySync()`, lines 206-215 of
`src/src/index.ts`: throw in a browser environment, otherwise read the wasm
binary from the package directory via `loadWasmBytesSyncNode`
(`fs.readFileSync`, modelled by the ambient `readFileSync` function) and
construct a fresh handle from those bytes. -/
def fromCurrentDirectorySync (isBrowserEnv : Bool)
    (readFileSync : String → List Nat) (dirname : String) : SyncLoadResult :=
  if isBrowserEnv then
    .threw ("fromCurrentDirectorySync() is not available in browser. " ++
      "Use fromCurrentDirectory() or fromResponse() instead.")
  else
    .ok (.fromBytes (readFileSync (dirname ++ "/reed_solomon_erasure_bg.wasm")))

end ReedSolomonErasure

/-- Truncate or zero-pad a byte list to exactly `n` bytes. -/
def padTo (n : Nat) (l : List Nat) : List Nat :=
  l.take n ++ List.replicate (n - l.length) 0

/-- Modelled from the spec: the coding engine itself (the wasm binary
`reed_solomon_erasure_bg.wasm`) is not under `src/`; only its four-export
interface is.  Following section 1 and section 8 of the spec, its `encode`
"fills additional parity_shards with parity information" computed from the
data shards, so the parity written is a function `parityFn` of the
data-shard bytes and the two counts alone, and its validation of the input
shape depends only on the region length and the two counts (`validFn`,
returning 0 exactly when the engine accepts the shape).  `malloc` appends a
fresh zeroed region at the end of memory and bumps the buffer identity
(growth reallocates the buffer); `free` is a no-op on the byte content.
The `reconstructOp` component is irrelevant to the claims proved against
this model and is stubbed as an accepting no-op. -/
def specEngine (parityFn : List Nat → Nat → Nat → List Nat)
    (validFn : Nat → Nat → Nat → Int) : IWasm where
  malloc s len := (⟨s.bufferId + 1, s.mem ++ List.replicate len 0⟩, s.mem.length)
  free s _ _ := s
  encodeOp s ptr len d p :=
    if validFn len d p = 0 then
      let off := len * d / (d + p)
      let dataBytes := subarrayBytes s.mem ptr (ptr + off)
      let parity := padTo (len - off) (parityFn dataBytes d p)
      (⟨s.bufferId, listSet s.mem parity (ptr + off)⟩, 0)
    else
      (s, validFn len d p)
  reconstructOp s _ _ _ _ _ _ := (s, 0)

/-- A concrete well-behaved engine used by the witnesses: `malloc` grows
memory by exactly the requested length and returns the old end of memory,
`encodeOp` overwrites the parity segment of the region with the byte 7 and
accepts, `reconstructOp` overwrites the data prefix of the region with the
byte 9 and accepts. -/
def testEngine : IWasm where
  malloc s len := (⟨s.bufferId + 1, s.mem ++ List.replicate len 0⟩, s.mem.length)
  free s _ _ := s
  encodeOp s ptr len d p :=
    (⟨s.bufferId, listSet s.mem (List.replicate (len - len * d / (d + p)) 7)
      (ptr + len * d / (d + p))⟩, 0)
  reconstructOp s ptr len d p _ _ :=
    (⟨s.bufferId, listSet s.mem (List.replicate (len * d / (d + p)) 9) ptr⟩, 0)

/-- A concrete engine used by witnesses for the error path: it accepts
nothing, returning code 9 (incorrect shard size) from both operations. -/
def rejectingEngine : IWasm where
  malloc s len := (⟨s.bufferId + 1, s.mem ++ List.replicate len 0⟩, s.mem.length)
  free s _ _ := s
  encodeOp s _ _ _ _ := (s, 9)
  reconstructOp s _ _ _ _ _ _ := (s, 9)

/-- A concrete engine whose allocator hands out a pointer one past the end
of memory without growing it, so the very first marshaling copy throws a
`RangeError`.  Used to exhibit the exit path on which the adapter releases
nothing. -/
def badAllocEngine : IWasm where
  malloc s _ := (s, s.mem.length + 1)
  free s _ _ := s
  encodeOp s _ _ _ _ := (s, 0)
  reconstructOp s _ _ _ _ _ _ := (s, 0)

/-- Frame property of one `encode` call (claim C1): when the call returns
the engine code 0, the caller buffer keeps its length, the data region
`[0, shardSize * dataShards)` is byte-for-byte what the caller supplied,
and — provided the acquired region lies inside the engine memory, which is
what the claim presupposes of the engine — the parity region
`[shardSize * dataShards, shards.length)` holds exactly the bytes the
engine left at the matching offsets of the acquired region; when the call
returns any non-zero code the caller buffer is unmodified. -/
def encodeFrameProp (w : IWasm) (s0 : WasmState) (a0 : AdapterState)
    (shards : List Nat) (dataShards parityShards : Nat) : Prop :=
  let out := ReedSolomonErasure.encode w s0 a0 shards dataShards parityShards
  let shardSize := shards.length / (dataShards + parityShards)
  (out.result = some 0 →
    out.shards.length = shards.length ∧
    ∀ i, i < shardSize * dataShards → out.shards.getD i 0 = shards.getD i 0) ∧
  (out.result = some 0 →
    out.pointer + shards.length ≤ out.postMem.length →
    ∀ i, shardSize * dataShards ≤ i → i < shards.length →
      out.shards.getD i 0 = out.postMem.getD (out.pointer + i) 0) ∧
  (∀ r, out.result = some r → r ≠ 0 → out.shards = shards)

/-- Frame property of one `reconstruct` call (claim C2): when the call
returns the engine code 0, the caller buffer keeps its length and —
provided the data prefix of the acquired region lies inside engine
memory — the bytes `[pointer, pointer + shardSize * dataShards)` of the
engine region are copied to offset 0 of the caller buffer; the parity
region `[shardSize * dataShards, shards.length)` of the caller buffer is
not modified on any path; on any non-zero code the buffer is unmodified. -/
def reconstructFrameProp (w : IWasm) (s0 : WasmState) (a0 : AdapterState)
    (shards : List Nat) (dataShards parityShards : Nat)
    (shardsAvailable : List Bool) : Prop :=
  let out := ReedSolomonErasure.reconstruct w s0 a0 shards dataShards parityShards
    shardsAvailable
  let shardSize := shards.length / (dataShards + parityShards)
  (out.result = some 0 → out.shards.length = shards.length) ∧
  (out.result = some 0 →
    out.pointer + shardSize * dataShards ≤ out.postMem.length →
    ∀ i, i < shardSize * dataShards →
      out.shards.getD i 0 = out.postMem.getD (out.pointer + i) 0) ∧
  (∀ i, shardSize * dataShards ≤ i → out.shards.getD i 0 = shards.getD i 0) ∧
  (∀ r, out.result = some r → r ≠ 0 → out.shards = shards)

/-- Release discipline of the adapter (amended claim C3): on every normally
returning path — engine code 0 or not — each region obtained from the
engine allocator is freed exactly once, in acquisition order; on a path
that exits by a thrown marshaling `RangeError` (`result = none`) no region
is freed at all, since the source has no try or finally around the calls. -/
def scopedReleaseProp (w : IWasm) (s0 : WasmState) (a0 : AdapterState)
    (shards : List Nat) (dataShards parityShards : Nat)
    (shardsAvailable : List Bool) : Prop :=
  let eOut := ReedSolomonErasure.encode w s0 a0 shards dataShards parityShards
  let rOut := ReedSolomonErasure.reconstruct w s0 a0 shards dataShards parityShards
    shardsAvailable
  (eOut.result.isSome → eOut.frees = eOut.mallocs) ∧
  (eOut.result = none → eOut.frees = []) ∧
  (rOut.result.isSome → rOut.frees = rOut.mallocs) ∧
  (rOut.result = none → rOut.frees = [])

/-- Validation delegation (claim C7): whenever the engine is invoked, the
length argument it receives is the raw caller buffer length (with no
divisibility adjustment) and the two counts are passed through untouched;
and whenever the engine was invoked and the call returns normally, the
returned code is exactly the code the engine produced, so shape errors
surface only as engine codes, never as locally produced errors. -/
def rawLengthProp (w : IWasm) (s0 : WasmState) (a0 : AdapterState)
    (shards : List Nat) (dataShards parityShards : Nat)
    (shardsAvailable : List Bool) : Prop :=
  let eOut := ReedSolomonErasure.encode w s0 a0 shards dataShards parityShards
  let rOut := ReedSolomonErasure.reconstruct w s0 a0 shards dataShards parityShards
    shardsAvailable
  (∀ x, eOut.engineArgs = some x →
    x.2.1 = shards.length ∧ x.2.2.1 = dataShards ∧ x.2.2.2 = parityShards) ∧
  (eOut.engineArgs.isSome → eOut.result = eOut.engineRet) ∧
  (∀ x, rOut.engineArgs = some x →
    x.2.1 = shards.length ∧ x.2.2.1 = dataShards ∧ x.2.2.2.1 = parityShards) ∧
  (rOut.engineArgs.isSome → rOut.result = rOut.engineRet)

/-- Availability-vector frame property (claim C9): whatever the outcome,
the caller availability array is returned unchanged, and whenever the
engine is invoked, the byte array marshaled for it is exactly one byte per
entry (1 for true, 0 for false) and the availability length argument handed
to the engine is the raw array length. -/
def reconstructAvailProp (w : IWasm) (s0 : WasmState) (a0 : AdapterState)
    (shards : List Nat) (dataShards parityShards : Nat)
    (shardsAvailable : List Bool) : Prop :=
  let out := ReedSolomonErasure.reconstruct w s0 a0 shards dataShards parityShards
    shardsAvailable
  out.shardsAvailableOut = shardsAvailable ∧
  (∀ x, out.engineArgs = some x →
    out.availBytes = shardsAvailable.map (fun value => if value then (1 : Nat) else 0) ∧
    x.2.2.2.2.2 = shardsAvailable.length)

/-- Purity of `encode` over the spec-modelled engine (claim C8): two calls
with the same counts and the same data-region bytes — possibly different
initial parity bytes, engine states and view caches — return the same code,
and when that code is 0 they leave the same bytes in the parity region of
the caller buffer. -/
def encodePureProp (parityFn : List Nat → Nat → Nat → List Nat)
    (validFn : Nat → Nat → Nat → Int) (s0 s0' : WasmState)
    (a0 a0' : AdapterState) (shards shards' : List Nat)
    (dataShards parityShards : Nat) : Prop :=
  let out := ReedSolomonErasure.encode (specEngine parityFn validFn) s0 a0 shards
    dataShards parityShards
  let out' := ReedSolomonErasure.encode (specEngine parityFn validFn) s0' a0' shards'
    dataShards parityShards
  out.result = out'.result ∧
  (out.result = some 0 →
    ∀ i, shards.length / (dataShards + parityShards) * dataShards ≤ i →
      out.shards.getD i 0 = out'.shards.getD i 0)


/-! ### Helper lemmas about the byte-list operations -/

theorem getD_take (t : List Nat) (off i : Nat) (h : i < off) :
    (t.take off).getD i 0 = t.getD i 0 := by
  induction t generalizing off i with
  | nil => simp
  | cons a t ih =>
    cases off with
    | zero => omega
    | succ off =>
      cases i with
      | zero => simp
      | succ i =>
        simp only [List.take_succ_cons, List.getD_cons_succ]
        exact ih off i (by omega)

theorem getD_drop (t : List Nat) (k i : Nat) :
    (t.drop k).getD i 0 = t.getD (k + i) 0 := by
  induction t generalizing k with
  | nil => simp
  | cons a t ih =>
    cases k with
    | zero => simp
    | succ k =>
      simp only [List.drop_succ_cons]
      rw [show k + 1 + i = (k + i) + 1 from by omega, List.getD_cons_succ]
      exact ih k

theorem subarrayBytes_length (a : List Nat) (b e : Nat) :
    (subarrayBytes a b e).length = min e a.length - b := by
  simp [subarrayBytes]

theorem subarrayBytes_getD (a : List Nat) (b e i : Nat) (h : b + i < e) :
    (subarrayBytes a b e).getD i 0 = a.getD (b + i) 0 := by
  unfold subarrayBytes
  rw [getD_drop, getD_take _ _ _ h]

theorem listSet_length (t s : List Nat) (off : Nat) (h : off + s.length ≤ t.length) :
    (listSet t s off).length = t.length := by
  simp [listSet]
  omega

theorem listSet_getD_lt (t s : List Nat) (off i : Nat) (h1 : i < off)
    (h2 : off ≤ t.length) : (listSet t s off).getD i 0 = t.getD i 0 := by
  unfold listSet
  rw [List.getD_append _ _ _ _ (by simp [List.length_take]; omega),
    List.getD_append _ _ _ _ (by simp [List.length_take]; omega)]
  exact getD_take t off i h1

theorem listSet_getD_mid (t s : List Nat) (off i : Nat) (h1 : off ≤ i)
    (h2 : i - off < s.length) (h3 : off ≤ t.length) :
    (listSet t s off).getD i 0 = s.getD (i - off) 0 := by
  unfold listSet
  rw [List.getD_append _ _ _ _ (by simp [List.length_take]; omega),
    List.getD_append_right _ _ _ _ (by simp [List.length_take]; omega)]
  congr 1
  simp [List.length_take]
  omega

theorem listSet_getD_ge (t s : List Nat) (off i : Nat) (h1 : off + s.length ≤ i)
    (h2 : off ≤ t.length) : (listSet t s off).getD i 0 = t.getD i 0 := by
  unfold listSet
  rw [List.getD_append_right _ _ _ _ (by simp [List.length_take]; omega), getD_drop]
  have hlen : ((t.take off) ++ s).length = off + s.length := by
    simp [List.length_take]
    omega
  rw [hlen, show off + s.length + (i - (off + s.length)) = i from by omega]

theorem listSet_exact (A C B : List Nat) (h : C.length = B.length) :
    listSet (A ++ C) B A.length = A ++ B := by
  unfold listSet
  rw [List.take_left]
  have hlen : (A ++ C).length = A.length + B.length := by simp [h]
  rw [← hlen, List.drop_length, List.append_nil]

theorem subarray_append_mid (A B C : List Nat) :
    subarrayBytes (A ++ B ++ C) A.length (A.length + B.length) = B := by
  unfold subarrayBytes
  rw [@List.take_left' _ (A ++ B) C (A.length + B.length) (by simp), List.drop_left]

theorem list_eq_of_getD (xs ys : List Nat) (hlen : xs.length = ys.length)
    (h : ∀ i, i < xs.length → xs.getD i 0 = ys.getD i 0) : xs = ys := by
  induction xs generalizing ys with
  | nil =>
    cases ys with
    | nil => rfl
    | cons b u => simp at hlen
  | cons a t ih =>
    cases ys with
    | nil => simp at hlen
    | cons b u =>
      have h0 := h 0 (by simp)
      simp only [List.getD_cons_zero] at h0
      rw [h0]
      congr 1
      exact ih u (by simpa using hlen)
        (fun i hi => by simpa using h (i + 1) (by simp; omega))

theorem take_eq_of_getD (xs ys : List Nat) (n : Nat) (hx : n ≤ xs.length)
    (hy : n ≤ ys.length) (h : ∀ i, i < n → xs.getD i 0 = ys.getD i 0) :
    xs.take n = ys.take n := by
  apply list_eq_of_getD
  · simp
    omega
  · intro i hi
    have hin : i < n := by
      simp [List.length_take] at hi
      omega
    rw [getD_take _ _ _ hin, getD_take _ _ _ hin]
    exact h i hin

theorem padTo_length (n : Nat) (l : List Nat) : (padTo n l).length = n := by
  simp [padTo]
  omega

theorem offset_le_len (L d p : Nat) : L * d / (d + p) ≤ L := by
  rcases Nat.eq_zero_or_pos (d + p) with h | h
  · simp [h]
  · calc L * d / (d + p) ≤ L * (d + p) / (d + p) :=
        Nat.div_le_div_right (Nat.mul_le_mul_left L (Nat.le_add_right d p))
    _ = L := Nat.mul_div_cancel L h

theorem offset_eq_of_dvd (L d p : Nat) (hk : 0 < d + p) (hdvd : (d + p) ∣ L) :
    L / (d + p) * d = L * d / (d + p) := by
  obtain ⟨q, hq⟩ := hdvd
  subst hq
  rw [Nat.mul_div_cancel_left q hk, Nat.mul_assoc, Nat.mul_div_cancel_left _ hk]

/-! ### Claim C5: totality and exactness of getResultMessage -/

/-- Claim C5: `getResultMessage` is total and never throws — for every
integer input it returns a non-empty string; for each input 0 through 13 it
returns exactly the documented message for that code; and for every other
integer input it returns the generic unknown-code string that mentions the
code. -/
theorem getResultMessage_total :
    (∀ code : Int, ReedSolomonErasure.getResultMessage code ≠ "") ∧
    (ReedSolomonErasure.getResultMessage 0 = "OK" ∧
      ReedSolomonErasure.getResultMessage 1 = "Too few shards" ∧
      ReedSolomonErasure.getResultMessage 2 = "Too many shards" ∧
      ReedSolomonErasure.getResultMessage 3 = "Too few data shards" ∧
      ReedSolomonErasure.getResultMessage 4 = "Too many data shards" ∧
      ReedSolomonErasure.getResultMessage 5 = "Too few parity shards" ∧
      ReedSolomonErasure.getResultMessage 6 = "Too many parity shards" ∧
      ReedSolomonErasure.getResultMessage 7 = "Too few buffer shards" ∧
      ReedSolomonErasure.getResultMessage 8 = "Too many buffer shards" ∧
      ReedSolomonErasure.getResultMessage 9 = "Incorrect shard size" ∧
      ReedSolomonErasure.getResultMessage 10 = "Too few shards present for reconstruction" ∧
      ReedSolomonErasure.getResultMessage 11 = "Empty shard" ∧
      ReedSolomonErasure.getResultMessage 12 = "Invalid shard flags" ∧
      ReedSolomonErasure.getResultMessage 13 = "Invalid index") ∧
    (∀ code : Int, (code < 0 ∨ 13 < code) →
      ReedSolomonErasure.getResultMessage code = "Unknown error code: " ++ toString code) := by
  have hunk : ∀ code : Int, (code < 0 ∨ 13 < code) →
      ReedSolomonErasure.getResultMessage code = "Unknown error code: " ++ toString code := by
    intro code hc
    unfold ReedSolomonErasure.getResultMessage
    repeat rw [if_neg (by omega)]
  refine ⟨?_, by decide, hunk⟩
  intro code
  by_cases h0 : 0 ≤ code ∧ code ≤ 13
  · obtain ⟨hl, hr⟩ := h0
    interval_cases code <;> decide
  · rw [hunk code (by omega)]
    intro h
    have hlen := congrArg String.length h
    rw [String.length_append] at hlen
    have h1 : ("Unknown error code: ").length = 20 := by decide
    have h2 : ("" : String).length = 0 := by decide
    omega

/-- Claim C5 witness: the theorem instantiated at the out-of-range code -2. -/
theorem getResultMessage_total_witness :
    ((-2 : Int) < 0 ∨ 13 < (-2 : Int)) ∧
    ReedSolomonErasure.getResultMessage (-2) = "Unknown error code: " ++ toString (-2 : Int) :=
  ⟨Or.inl (by decide), getResultMessage_total.2.2 (-2) (Or.inl (by decide))⟩

/-! ### Claim C6: the memory-view accessor -/

/-- Claim C6: every call to `getUint8Memory` returns a view whose backing
buffer is, by reference, the current engine buffer; the returned view is
stored in the cache; when the cached view still matches the current buffer
identity it is returned itself with the cache untouched, and when the cache
is empty or stale a fresh view over the current buffer is derived.  The
accessor is a total function: it has no error conditions. -/
theorem getUint8Memory_view (a : AdapterState) (s : WasmState) :
    ((ReedSolomonErasure.getUint8Memory a s).1).bufferId = s.bufferId ∧
    ((ReedSolomonErasure.getUint8Memory a s).2).memoryCache =
      some (ReedSolomonErasure.getUint8Memory a s).1 ∧
    (∀ v, a.memoryCache = some v → v.bufferId = s.bufferId →
      ReedSolomonErasure.getUint8Memory a s = (v, a)) ∧
    (∀ v, a.memoryCache = some v → v.bufferId ≠ s.bufferId →
      (ReedSolomonErasure.getUint8Memory a s).1 = ⟨a.nextViewId, s.bufferId⟩) ∧
    (a.memoryCache = none →
      (ReedSolomonErasure.getUint8Memory a s).1 = ⟨a.nextViewId, s.bufferId⟩) := by
  obtain ⟨mc, nvi⟩ := a
  cases mc with
  | none =>
    refine ⟨rfl, rfl, ?_, ?_, fun _ => rfl⟩
    · intro v hv
      exact Option.noConfusion hv
    · intro v hv
      exact Option.noConfusion hv
  | some v =>
    by_cases hb : v.bufferId = s.bufferId
    · refine ⟨?_, ?_, ?_, ?_, ?_⟩
      · simp [ReedSolomonErasure.getUint8Memory, hb]
      · simp [ReedSolomonErasure.getUint8Memory, hb]
      · intro v' hv' _
        have hvv : v = v' := Option.some.inj hv'
        subst hvv
        simp [ReedSolomonErasure.getUint8Memory, hb]
      · intro v' hv' hne
        have hvv : v = v' := Option.some.inj hv'
        subst hvv
        exact absurd hb hne
      · intro h
        exact Option.noConfusion h
    · refine ⟨?_, ?_, ?_, ?_, ?_⟩
      · simp [ReedSolomonErasure.getUint8Memory, hb]
      · simp [ReedSolomonErasure.getUint8Memory, hb]
      · intro v' hv' heq
        have hvv : v = v' := Option.some.inj hv'
        subst hvv
        exact absurd heq hb
      · intro v' hv' _
        simp [ReedSolomonErasure.getUint8Memory, hb]
      · intro h
        exact Option.noConfusion h

/-- Claim C6 witness: a cached view over the current buffer (identity 5) is
reused and the cache left untouched. -/
theorem getUint8Memory_view_witness :
    ReedSolomonErasure.getUint8Memory ⟨some ⟨0, 5⟩, 1⟩ ⟨5, []⟩ = (⟨0, 5⟩, ⟨some ⟨0, 5⟩, 1⟩) :=
  (getUint8Memory_view ⟨some ⟨0, 5⟩, 1⟩ ⟨5, []⟩).2.2.1 ⟨0, 5⟩ rfl rfl

/-! ### Claim C4: the singleton lifecycle -/

/-- Claim C4 counterexample: start an instantiation from the empty slot and
let it settle with failure.  The claim states the in-flight marker is
cleared once the instantiation settles, whether it succeeds or fails; in
the source the statement `loadingPromise = null` stands after
`cachedInstance = await loadingPromise`, so when the awaited promise
rejects it never runs and the marker keeps pointing at the failed promise. -/
theorem getInstance_marker_kept_on_failure :
    ReedSolomonErasure.getInstanceStep ⟨none, none⟩ 7 = (.started 7, ⟨none, some 7⟩) ∧
    ((ReedSolomonErasure.getInstanceSettle ⟨none, some 7⟩ .failure).1).loadingPromise = some 7 ∧
    ((ReedSolomonErasure.getInstanceSettle ⟨none, some 7⟩ .failure).1).loadingPromise ≠ none := by
  refine ⟨rfl, rfl, by simp [ReedSolomonErasure.getInstanceSettle]⟩

/-- Claim C4, amended: a cached handle is returned as is; with an
instantiation in flight every caller receives that same pending promise; a
new instantiation starts only when there is neither a cached handle nor an
in-flight one (so at most one is ever in flight and concurrent requesters
share its outcome); when the instantiation settles successfully its handle
is cached and the marker cleared — but when it settles with failure the
slot is left unchanged, the marker still pointing at the same failed
promise, which later callers will keep receiving. -/
theorem getInstance_lifecycle (s : ReedSolomonErasure.SingletonState) (freshPid : Nat) :
    (∀ h, s.cachedInstance = some h →
      ReedSolomonErasure.getInstanceStep s freshPid = (.resolvedCached h, s)) ∧
    (∀ pid, s.cachedInstance = none → s.loadingPromise = some pid →
      ReedSolomonErasure.getInstanceStep s freshPid = (.joined pid, s)) ∧
    (s.cachedInstance = none → s.loadingPromise = none →
      ReedSolomonErasure.getInstanceStep s freshPid = (.started freshPid, ⟨none, some freshPid⟩)) ∧
    (∀ pid st, ReedSolomonErasure.getInstanceStep s freshPid = (.started pid, st) →
      s.cachedInstance = none ∧ s.loadingPromise = none ∧ pid = freshPid ∧
      st = ⟨none, some freshPid⟩) ∧
    (∀ h, ReedSolomonErasure.getInstanceSettle s (.success h) = (⟨some h, none⟩, some h)) ∧
    (ReedSolomonErasure.getInstanceSettle s .failure = (s, none)) := by
  obtain ⟨ci, lp⟩ := s
  cases ci <;> cases lp <;>
    simp [ReedSolomonErasure.getInstanceStep, ReedSolomonErasure.getInstanceSettle]

/-- Claim C4 witness: a second caller arriving while promise 3 is in flight
joins that same promise and the slot is unchanged. -/
theorem getInstance_lifecycle_witness :
    ReedSolomonErasure.getInstanceStep ⟨none, some 3⟩ 9 = (.joined 3, ⟨none, some 3⟩) :=
  (getInstance_lifecycle ⟨none, some 3⟩ 9).2.1 3 rfl rfl

/-! ### Claim C10: the synchronous directory loader -/

/-- Claim C10: `fromCurrentDirectorySync` throws an `Error` (and constructs
no engine handle) whenever invoked in a browser environment, and in Node.js
synchronously reads the wasm binary from the package directory and returns
a handle freshly constructed from those bytes. -/
theorem fromCurrentDirectorySync_spec (isB : Bool) (fs : String → List Nat)
    (dir : String) :
    (isB = true → ReedSolomonErasure.fromCurrentDirectorySync isB fs dir =
      .threw ("fromCurrentDirectorySync() is not available in browser. " ++
        "Use fromCurrentDirectory() or fromResponse() instead.")) ∧
    (isB = false → ReedSolomonErasure.fromCurrentDirectorySync isB fs dir =
      .ok (.fromBytes (fs (dir ++ "/reed_solomon_erasure_bg.wasm")))) := by
  cases isB <;> simp [ReedSolomonErasure.fromCurrentDirectorySync]

/-- Claim C10 witness: in Node.js the wasm magic bytes read from the
package directory end up in the constructed handle. -/
theorem fromCurrentDirectorySync_witness :
    ReedSolomonErasure.fromCurrentDirectorySync false
      (fun _ => [0, 97, 115, 109]) "/pkg/dist" = .ok (.fromBytes [0, 97, 115, 109]) :=
  (fromCurrentDirectorySync_spec false (fun _ => [0, 97, 115, 109]) "/pkg/dist").2 rfl

/-! ### Claim C3: the release discipline -/

/-- Claim C3 counterexample: with an allocator that answers with a pointer
one past the end of memory, the copy-in marshaling step of `encode` throws
a `RangeError`, and the call exits having acquired one region and released
none — the source has no try or finally, so `__wbindgen_free` is not
reached on this exit path, though the claim requires a release even when a
marshaling step fails partway through. -/
theorem encode_leak_on_marshal_failure :
    (ReedSolomonErasure.encode badAllocEngine ⟨0, []⟩ ⟨none, 0⟩ [0] 1 1).result = none ∧
    (ReedSolomonErasure.encode badAllocEngine ⟨0, []⟩ ⟨none, 0⟩ [0] 1 1).mallocs = [(1, 1)] ∧
    (ReedSolomonErasure.encode badAllocEngine ⟨0, []⟩ ⟨none, 0⟩ [0] 1 1).frees = [] := by
  decide

/-- Claim C3, amended: on every normally returning path of `encode` and
`reconstruct` — whether the engine code is 0 or not — every region obtained
from the engine allocator is released exactly once before the call returns;
on a path that exits by a thrown marshaling error, no acquired region is
released at all. -/
theorem free_exactly_once (w : IWasm) (s0 : WasmState) (a0 : AdapterState)
    (shards : List Nat) (dataShards parityShards : Nat)
    (shardsAvailable : List Bool) :
    scopedReleaseProp w s0 a0 shards dataShards parityShards shardsAvailable := by
  unfold scopedReleaseProp ReedSolomonErasure.encode ReedSolomonErasure.reconstruct
  dsimp only
  repeat' split
  all_goals simp

/-- Claim C3 witness: a successful `encode` call against the well-behaved
test engine frees exactly the regions it allocated. -/
theorem free_exactly_once_witness :
    (ReedSolomonErasure.encode testEngine ⟨0, []⟩ ⟨none, 0⟩ [1, 2, 3, 4, 5, 6] 2 1).result.isSome ∧
    (ReedSolomonErasure.encode testEngine ⟨0, []⟩ ⟨none, 0⟩ [1, 2, 3, 4, 5, 6] 2 1).frees =
      (ReedSolomonErasure.encode testEngine ⟨0, []⟩ ⟨none, 0⟩ [1, 2, 3, 4, 5, 6] 2 1).mallocs :=
  ⟨by decide,
    (free_exactly_once testEngine ⟨0, []⟩ ⟨none, 0⟩ [1, 2, 3, 4, 5, 6] 2 1 []).1 (by decide)⟩

/-! ### Claims C7 and C9: raw argument passthrough -/

theorem encode_copyout_fits (mem : List Nat) (ptr L d p : Nat) :
    L * d / (d + p) + (subarrayBytes mem (ptr + L * d / (d + p)) (ptr + L)).length ≤ L := by
  have h1 := subarrayBytes_length mem (ptr + L * d / (d + p)) (ptr + L)
  have h2 := offset_le_len L d p
  omega

theorem reconstruct_copyout_fits (mem : List Nat) (ptr L d p : Nat) :
    (subarrayBytes mem ptr (ptr + L * d / (d + p))).length ≤ L := by
  have h1 := subarrayBytes_length mem ptr (ptr + L * d / (d + p))
  have h2 := offset_le_len L d p
  omega

/-- Claim C7: the adapter performs no shard-count or divisibility
validation of its own — whenever the engine is invoked it receives the raw
buffer length and the two counts untouched, and whenever it was invoked and
the call returns, the returned code is exactly the engine code. -/
theorem raw_passthrough (w : IWasm) (s0 : WasmState) (a0 : AdapterState)
    (shards : List Nat) (dataShards parityShards : Nat)
    (shardsAvailable : List Bool) :
    rawLengthProp w s0 a0 shards dataShards parityShards shardsAvailable := by
  unfold rawLengthProp ReedSolomonErasure.encode ReedSolomonErasure.reconstruct
  dsimp only
  repeat' split
  all_goals simp
  all_goals
    first
      | exact absurd (encode_copyout_fits _ _ _ _ _) (by assumption)
      | exact absurd (reconstruct_copyout_fits _ _ _ _ _) (by assumption)

/-- Claim C7 witness: a 5-byte buffer split as 1+1 shards (5 is not
divisible by 2) still reaches the engine with raw length 5, and the call
returns exactly the engine code. -/
theorem raw_passthrough_witness :
    (ReedSolomonErasure.encode testEngine ⟨0, []⟩ ⟨none, 0⟩ [1, 2, 3, 4, 5] 1 1).engineArgs =
      some (0, 5, 1, 1) ∧
    ((0, 5, 1, 1) : Nat × Nat × Nat × Nat).2.1 = ([1, 2, 3, 4, 5] : List Nat).length ∧
    (ReedSolomonErasure.encode testEngine ⟨0, []⟩ ⟨none, 0⟩ [1, 2, 3, 4, 5] 1 1).result =
      (ReedSolomonErasure.encode testEngine ⟨0, []⟩ ⟨none, 0⟩ [1, 2, 3, 4, 5] 1 1).engineRet :=
  ⟨by decide,
    ((raw_passthrough testEngine ⟨0, []⟩ ⟨none, 0⟩ [1, 2, 3, 4, 5] 1 1 []).1
      (0, 5, 1, 1) (by decide)).1,
    (raw_passthrough testEngine ⟨0, []⟩ ⟨none, 0⟩ [1, 2, 3, 4, 5] 1 1 []).2.1 (by decide)⟩

/-- Claim C9: the caller availability array is never written back, the
marshaled availability bytes are exactly one byte per entry, and the engine
receives the raw availability length, unchecked against the shard counts. -/
theorem reconstruct_avail_frame (w : IWasm) (s0 : WasmState) (a0 : AdapterState)
    (shards : List Nat) (dataShards parityShards : Nat)
    (shardsAvailable : List Bool) :
    reconstructAvailProp w s0 a0 shards dataShards parityShards shardsAvailable := by
  unfold reconstructAvailProp ReedSolomonErasure.reconstruct
  dsimp only
  repeat' split
  all_goals simp

/-- Claim C9 witness: an availability vector of length 3 against 1+1
shards (a mismatch the adapter does not check) is marshaled as the bytes
1, 0, 1 and its raw length 3 reaches the engine; the vector itself is
returned unchanged. -/
theorem reconstruct_avail_frame_witness :
    (ReedSolomonErasure.reconstruct testEngine ⟨0, []⟩ ⟨none, 0⟩ [1, 2, 3, 4] 1 1
      [true, false, true]).shardsAvailableOut = [true, false, true] ∧
    (ReedSolomonErasure.reconstruct testEngine ⟨0, []⟩ ⟨none, 0⟩ [1, 2, 3, 4] 1 1
      [true, false, true]).availBytes = [1, 0, 1] ∧
    ((0, 4, 1, 1, 4, 3) : Nat × Nat × Nat × Nat × Nat × Nat).2.2.2.2.2 =
      ([true, false, true] : List Bool).length :=
  ⟨(reconstruct_avail_frame testEngine ⟨0, []⟩ ⟨none, 0⟩ [1, 2, 3, 4] 1 1
      [true, false, true]).1,
    by
      have h := ((reconstruct_avail_frame testEngine ⟨0, []⟩ ⟨none, 0⟩ [1, 2, 3, 4] 1 1
        [true, false, true]).2 (0, 4, 1, 1, 4, 3) (by decide)).1
      simpa using h,
    ((reconstruct_avail_frame testEngine ⟨0, []⟩ ⟨none, 0⟩ [1, 2, 3, 4] 1 1
      [true, false, true]).2 (0, 4, 1, 1, 4, 3) (by decide)).2⟩

/-! ### Claim C1: the encode frame property -/

/-- Claim C1: on a call that returns the engine code 0, `encode` overwrites
exactly the parity region of the caller buffer with the bytes the engine
left at the matching offsets of its acquired region, and leaves the data
region exactly as supplied; on any non-zero code the buffer is untouched. -/
theorem encode_frame (w : IWasm) (s0 : WasmState) (a0 : AdapterState)
    (shards : List Nat) (dataShards parityShards : Nat)
    (hk : 0 < dataShards + parityShards)
    (hdvd : (dataShards + parityShards) ∣ shards.length) :
    encodeFrameProp w s0 a0 shards dataShards parityShards := by
  have hoff := offset_eq_of_dvd shards.length dataShards parityShards hk hdvd
  have hle := offset_le_len shards.length dataShards parityShards
  unfold encodeFrameProp ReedSolomonErasure.encode
  dsimp only
  simp only [hoff]
  split
  · split
    · split
      · rename_i h1 hres hfit
        dsimp only
        refine ⟨?_, ?_, ?_⟩
        · intro _
          refine ⟨listSet_length _ _ _ hfit, ?_⟩
          intro i hi
          exact listSet_getD_lt _ _ _ _ hi hle
        · intro _ hvalid i hi1 hi2
          have hsublen : (subarrayBytes
              (w.encodeOp ⟨(w.malloc s0 shards.length).1.bufferId,
                listSet (w.malloc s0 shards.length).1.mem shards (w.malloc s0 shards.length).2⟩
                (w.malloc s0 shards.length).2 shards.length dataShards parityShards).1.mem
              ((w.malloc s0 shards.length).2 +
                shards.length * dataShards / (dataShards + parityShards))
              ((w.malloc s0 shards.length).2 + shards.length)).length
              = shards.length - shards.length * dataShards / (dataShards + parityShards) := by
            rw [subarrayBytes_length]
            omega
          rw [listSet_getD_mid _ _ _ _ hi1 (by omega) hle,
            subarrayBytes_getD _ _ _ _ (by omega),
            show (w.malloc s0 shards.length).2 +
                shards.length * dataShards / (dataShards + parityShards) +
                (i - shards.length * dataShards / (dataShards + parityShards)) =
              (w.malloc s0 shards.length).2 + i from by omega]
        · intro r hr hne
          exact absurd (hres ▸ Option.some.inj hr).symm hne
      · simp
    · rename_i h1 hres
      refine ⟨?_, ?_, ?_⟩
      · intro h0
        exact absurd (Option.some.inj h0) hres
      · intro h0
        exact absurd (Option.some.inj h0) hres
      · intro r _ _
        rfl
  · simp

/-- Claim C1 witness: encoding 2+1 shards of size 2 against the test
engine; the engine writes the byte 7 over the parity segment. -/
theorem encode_frame_witness :
    0 < 2 + 1 ∧ (2 + 1) ∣ ([1, 2, 3, 4, 5, 6] : List Nat).length ∧
    encodeFrameProp testEngine ⟨0, []⟩ ⟨none, 0⟩ [1, 2, 3, 4, 5, 6] 2 1 :=
  ⟨by decide, by decide,
    encode_frame testEngine ⟨0, []⟩ ⟨none, 0⟩ [1, 2, 3, 4, 5, 6] 2 1 (by decide) (by decide)⟩

/-! ### Claim C2: the reconstruct frame property -/

theorem reconstruct_copyout_length (mem shards : List Nat) (ptr off : Nat)
    (hoffle : off ≤ shards.length) :
    (listSet shards (subarrayBytes mem ptr (ptr + off)) 0).length = shards.length := by
  have hsub := subarrayBytes_length mem ptr (ptr + off)
  exact listSet_length _ _ _ (by omega)

theorem reconstruct_copyout_getD (mem shards : List Nat) (ptr off i : Nat)
    (hvalid : ptr + off ≤ mem.length) (hi : i < off) :
    (listSet shards (subarrayBytes mem ptr (ptr + off)) 0).getD i 0 =
      mem.getD (ptr + i) 0 := by
  have hsub := subarrayBytes_length mem ptr (ptr + off)
  rw [listSet_getD_mid shards _ 0 i (Nat.zero_le i) (by omega) (Nat.zero_le _),
    Nat.sub_zero]
  exact subarrayBytes_getD mem ptr (ptr + off) i (by omega)

theorem reconstruct_copyout_getD_ge (mem shards : List Nat) (ptr off i : Nat)
    (hoffi : off ≤ i) :
    (listSet shards (subarrayBytes mem ptr (ptr + off)) 0).getD i 0 =
      shards.getD i 0 := by
  have hsub := subarrayBytes_length mem ptr (ptr + off)
  exact listSet_getD_ge shards _ 0 i (by omega) (Nat.zero_le _)

/-- Claim C2: on a call that returns the engine code 0, `reconstruct`
copies the entire data-shard prefix of the engine region into the caller
buffer starting at offset 0; the parity region of the caller buffer is
never modified on any path, and on any non-zero code the buffer is left
entirely unmodified. -/
theorem reconstruct_frame (w : IWasm) (s0 : WasmState) (a0 : AdapterState)
    (shards : List Nat) (dataShards parityShards : Nat)
    (shardsAvailable : List Bool)
    (hk : 0 < dataShards + parityShards)
    (hdvd : (dataShards + parityShards) ∣ shards.length) :
    reconstructFrameProp w s0 a0 shards dataShards parityShards shardsAvailable := by
  have hoff := offset_eq_of_dvd shards.length dataShards parityShards hk hdvd
  have hle := offset_le_len shards.length dataShards parityShards
  unfold reconstructFrameProp ReedSolomonErasure.reconstruct
  dsimp only
  simp only [hoff]
  split
  · split
    · split
      · split
        · rename_i h1 h2 hres hfit
          dsimp only
          refine ⟨?_, ?_, ?_, ?_⟩
          · intro _
            exact reconstruct_copyout_length _ _ _ _ hle
          · intro _ hvalid i hi
            exact reconstruct_copyout_getD _ _ _ _ _ hvalid hi
          · intro i hi
            exact reconstruct_copyout_getD_ge _ _ _ _ _ hi
          · intro r hr hne
            exact absurd (hres ▸ Option.some.inj hr).symm hne
        · simp
      · rename_i h1 h2 hres
        simp [hres]
    · simp
  · simp

/-- Claim C2 witness: reconstructing 2+1 shards of size 2 against the test
engine; the engine rewrites the data prefix of the region with the byte 9. -/
theorem reconstruct_frame_witness :
    0 < 2 + 1 ∧ (2 + 1) ∣ ([1, 2, 3, 4, 5, 6] : List Nat).length ∧
    reconstructFrameProp testEngine ⟨0, []⟩ ⟨none, 0⟩ [1, 2, 3, 4, 5, 6] 2 1
      [true, true, true] :=
  ⟨by decide, by decide,
    reconstruct_frame testEngine ⟨0, []⟩ ⟨none, 0⟩ [1, 2, 3, 4, 5, 6] 2 1
      [true, true, true] (by decide) (by decide)⟩

/-! ### Claim C8: purity of encode over the spec-modelled engine -/

theorem subarray_append_exact (A B : List Nat) :
    subarrayBytes (A ++ B) A.length (A.length + B.length) = B := by
  have h := subarray_append_mid A B []
  simpa using h

theorem subarray_append_take (A B : List Nat) (n : Nat) (hn : n ≤ B.length) :
    subarrayBytes (A ++ B) A.length (A.length + n) = B.take n := by
  conv_lhs => rw [show A ++ B = A ++ B.take n ++ B.drop n from by
    rw [List.append_assoc, List.take_append_drop]]
  rw [show A.length + n = A.length + (B.take n).length from by
    rw [List.length_take]; omega]
  exact subarray_append_mid A (B.take n) (B.drop n)

theorem encode_specEngine_eval (f : List Nat → Nat → Nat → List Nat)
    (v : Nat → Nat → Nat → Int) (s0 : WasmState) (a0 : AdapterState)
    (shards : List Nat) (dataShards parityShards : Nat) :
    (ReedSolomonErasure.encode (specEngine f v) s0 a0 shards dataShards parityShards).result
      = some (v shards.length dataShards parityShards) ∧
    (v shards.length dataShards parityShards = 0 →
      (ReedSolomonErasure.encode (specEngine f v) s0 a0 shards dataShards parityShards).shards
        = shards.take (shards.length * dataShards / (dataShards + parityShards)) ++
          padTo (shards.length - shards.length * dataShards / (dataShards + parityShards))
            (f (shards.take (shards.length * dataShards / (dataShards + parityShards)))
              dataShards parityShards)) := by
  have hle := offset_le_len shards.length dataShards parityShards
  unfold ReedSolomonErasure.encode specEngine
  dsimp only
  rw [if_pos (by simp)]
  rw [listSet_exact s0.mem (List.replicate shards.length 0) shards (by simp)]
  by_cases hv : v shards.length dataShards parityShards = 0
  · rw [if_pos hv]
    dsimp only
    rw [if_pos rfl]
    rw [subarray_append_take s0.mem shards _ hle]
    rw [show s0.mem ++ shards =
        s0.mem ++ shards.take (shards.length * dataShards / (dataShards + parityShards)) ++
          shards.drop (shards.length * dataShards / (dataShards + parityShards)) from by
      rw [List.append_assoc, List.take_append_drop]]
    rw [show s0.mem.length + shards.length * dataShards / (dataShards + parityShards) =
        (s0.mem ++ shards.take (shards.length * dataShards / (dataShards + parityShards))).length
        from by simp [List.length_take]; omega]
    rw [listSet_exact _ _ _ (by simp [padTo_length])]
    rw [show s0.mem.length + shards.length =
        (s0.mem ++ shards.take (shards.length * dataShards / (dataShards + parityShards))).length +
          (padTo (shards.length - shards.length * dataShards / (dataShards + parityShards))
            (f (shards.take (shards.length * dataShards / (dataShards + parityShards)))
              dataShards parityShards)).length
        from by simp [padTo_length, List.length_take]; omega]
    rw [subarray_append_exact]
    rw [if_pos (by rw [padTo_length]; omega)]
    refine ⟨by rw [hv], fun _ => ?_⟩
    unfold listSet
    rw [padTo_length, show shards.length * dataShards / (dataShards + parityShards) +
        (shards.length - shards.length * dataShards / (dataShards + parityShards)) =
      shards.length from by omega, List.drop_length, List.append_nil]
  · rw [if_neg hv]
    dsimp only
    rw [if_neg hv]
    exact ⟨rfl, fun h => absurd h hv⟩

/-- Claim C8 (engine modelled from the spec, see `specEngine`): `encode` is
deterministic and a pure function of the data-shard region given fixed
counts — two calls with identical counts and identical data-region bytes,
even from different engine states, view caches and initial parity bytes,
return the same code, and on code 0 leave identical parity bytes in the
caller buffers. -/
theorem encode_pure (parityFn : List Nat → Nat → Nat → List Nat)
    (validFn : Nat → Nat → Nat → Int) (s0 s0' : WasmState)
    (a0 a0' : AdapterState) (shards shards' : List Nat)
    (dataShards parityShards : Nat)
    (hk : 0 < dataShards + parityShards)
    (hdvd : (dataShards + parityShards) ∣ shards.length)
    (hlen : shards'.length = shards.length)
    (hdata : ∀ i, i < shards.length / (dataShards + parityShards) * dataShards →
      shards.getD i 0 = shards'.getD i 0) :
    encodePureProp parityFn validFn s0 s0' a0 a0' shards shards' dataShards parityShards := by
  have hoff := offset_eq_of_dvd shards.length dataShards parityShards hk hdvd
  have hle := offset_le_len shards.length dataShards parityShards
  have he := encode_specEngine_eval parityFn validFn s0 a0 shards dataShards parityShards
  have he' := encode_specEngine_eval parityFn validFn s0' a0' shards' dataShards parityShards
  rw [hlen] at he'
  have htake : shards.take (shards.length * dataShards / (dataShards + parityShards)) =
      shards'.take (shards.length * dataShards / (dataShards + parityShards)) := by
    apply take_eq_of_getD _ _ _ (by omega) (by omega)
    intro i hi
    exact hdata i (by rw [hoff]; exact hi)
  unfold encodePureProp
  dsimp only
  constructor
  · rw [he.1, he'.1]
  · intro hres i hi
    have hv : validFn shards.length dataShards parityShards = 0 := by
      rw [he.1] at hres
      exact Option.some.inj hres
    rw [he.2 hv, he'.2 hv, htake]

/-- Claim C8 witness: two encodes of the same data bytes 1,2,3,4 with
different initial parity bytes and different engine states produce the same
code and the same parity output, for a parity function that sums the data
bytes and a shape check accepting 2+1 shards of size 2. -/
theorem encode_pure_witness :
    0 < 2 + 1 ∧ (2 + 1) ∣ ([1, 2, 3, 4, 9, 9] : List Nat).length ∧
    ([1, 2, 3, 4, 0, 0] : List Nat).length = ([1, 2, 3, 4, 9, 9] : List Nat).length ∧
    (∀ i, i < ([1, 2, 3, 4, 9, 9] : List Nat).length / (2 + 1) * 2 →
      ([1, 2, 3, 4, 9, 9] : List Nat).getD i 0 = ([1, 2, 3, 4, 0, 0] : List Nat).getD i 0) ∧
    encodePureProp (fun dataBytes _ _ => [dataBytes.sum, 0])
      (fun len d p => if len = (d + p) * 2 then 0 else 9)
      ⟨0, []⟩ ⟨3, [5, 5]⟩ ⟨none, 0⟩ ⟨some ⟨0, 3⟩, 1⟩
      [1, 2, 3, 4, 9, 9] [1, 2, 3, 4, 0, 0] 2 1 :=
  ⟨by decide, by decide, by decide, by decide,
    encode_pure (fun dataBytes _ _ => [dataBytes.sum, 0])
      (fun len d p => if len = (d + p) * 2 then 0 else 9)
      ⟨0, []⟩ ⟨3, [5, 5]⟩ ⟨none, 0⟩ ⟨some ⟨0, 3⟩, 1⟩
      [1, 2, 3, 4, 9, 9] [1, 2, 3, 4, 0, 0] 2 1
      (by decide) (by decide) (by decide) (by decide)⟩
